import Mathlib

/-!
Shallow embedding of the news_feed server (SQLite generation: `server.js` +
`database.js`, with the legacy `src/server.js` + `src/utils/ai.js` where the
claims cite them).

JavaScript strings are modelled as Lean `String`s; JS `substring`, `slice`,
`length` and `toLowerCase` are embedded below as operations on the underlying
character list (JS operates on UTF-16 units; for the BMP-only strings handled
here the two coincide).  The SQLite tables are modelled as lists of row
structures inside a `DB` record; prepared statements become pure functions on
`DB`.  A statement that can raise (the UNIQUE constraint on `articles.link`)
returns `Except`.  `ORDER BY` clauses are embedded with `List.insertionSort`.
-/

namespace NewsFeed

/-- JS `s.toLowerCase()` (ASCII case mapping on each character). -/
def jsToLower (s : String) : String :=
  String.mk (s.data.map Char.toLower)

/-- JS `s.substring(0, n)` / `s.slice(0, n)`: the first `n` UTF-16 units. -/
def jsTake (s : String) (n : Nat) : String :=
  String.mk (s.data.take n)

/-- JS `s.length`. -/
def jsLength (s : String) : Nat :=
  s.data.length

/-- Row of the `users` table (`database.js`, `CREATE TABLE users`). -/
structure User where
  id : String
  email : String
  password : String
deriving DecidableEq, Repr

/-- Row of the `sources` table (`database.js`, `CREATE TABLE sources`).
`enabled` is an SQLite INTEGER used as a JS truthy value; it is modelled
as `Bool`. -/
structure Source where
  id : Nat
  user_id : String
  name : String
  url : String
  type : String
  enabled : Bool
  created_at : String
deriving DecidableEq, Repr

/-- Row of the `articles` table (`database.js`, `CREATE TABLE articles`). -/
structure Article where
  id : Nat
  user_id : String
  source_id : Nat
  source_name : String
  title : String
  link : String
  summary : String
  published_at : String
  fetched_at : String
deriving DecidableEq, Repr

/-- The SQLite database file: the three tables plus the AUTOINCREMENT
counter for `articles.id`. -/
structure DB where
  users : List User
  sources : List Source
  articles : List Article
  nextArticleId : Nat
deriving DecidableEq, Repr

/-- `ORDER BY fetched_at ASC` comparison. -/
def fetchedLe (a b : Article) : Prop :=
  a.fetched_at ≤ b.fetched_at

/-- `ORDER BY published_at DESC` comparison. -/
def publishedGe (a b : Article) : Prop :=
  b.published_at ≤ a.published_at

/-- `ORDER BY created_at DESC` comparison for sources. -/
def createdGe (a b : Source) : Prop :=
  b.created_at ≤ a.created_at

instance : DecidableRel fetchedLe :=
  fun a b => inferInstanceAs (Decidable (a.fetched_at ≤ b.fetched_at))

instance : DecidableRel publishedGe :=
  fun a b => inferInstanceAs (Decidable (b.published_at ≤ a.published_at))

instance : DecidableRel createdGe :=
  fun a b => inferInstanceAs (Decidable (b.created_at ≤ a.created_at))

instance : IsTotal Article fetchedLe :=
  ⟨fun a b => le_total a.fetched_at b.fetched_at⟩

instance : IsTrans Article fetchedLe :=
  ⟨fun _ _ _ h1 h2 => le_trans h1 h2⟩

instance : IsTotal Article publishedGe :=
  ⟨fun a b => le_total b.published_at a.published_at⟩

instance : IsTrans Article publishedGe :=
  ⟨fun _ _ _ h1 h2 => le_trans h2 h1⟩

instance : IsTotal Source createdGe :=
  ⟨fun a b => le_total b.created_at a.created_at⟩

instance : IsTrans Source createdGe :=
  ⟨fun _ _ _ h1 h2 => le_trans h2 h1⟩

/-- `userQueries.create`: `INSERT INTO users (id, email, password)`. -/
def userQueries.create (db : DB) (id email password : String) : DB :=
  { db with users := db.users ++ [⟨id, email, password⟩] }

/-- `userQueries.findByEmail`: `SELECT * FROM users WHERE email = ?`,
first matching row or null. -/
def userQueries.findByEmail (db : DB) (email : String) : Option User :=
  db.users.find? (fun u => u.email = email)

/-- `sourceQueries.create`: `INSERT INTO sources (user_id, name, url, type,
enabled)`; the fresh AUTOINCREMENT id and the `datetime('now')` default are
passed in explicitly. -/
def sourceQueries.create (db : DB) (user_id name url type : String)
    (enabled : Bool) (newId : Nat) (created_at : String) : DB :=
  { db with sources := db.sources ++ [⟨newId, user_id, name, url, type, enabled, created_at⟩] }

/-- `sourceQueries.findByUser`:
`SELECT * FROM sources WHERE user_id = ? ORDER BY created_at DESC`. -/
def sourceQueries.findByUser (db : DB) (user_id : String) : List Source :=
  List.insertionSort createdGe (db.sources.filter (fun s => s.user_id = user_id))

/-- `sourceQueries.delete`: `DELETE FROM sources WHERE id = ? AND user_id = ?`,
returning the number of rows modified (`db.getRowsModified()`). -/
def sourceQueries.delete (db : DB) (id : Nat) (user_id : String) : DB × Nat :=
  let remaining := db.sources.filter (fun s => ¬(s.id = id ∧ s.user_id = user_id))
  ({ db with sources := remaining }, db.sources.length - remaining.length)

/-- `articleQueries.create`: `INSERT INTO articles ...`.  The schema declares
`link TEXT UNIQUE NOT NULL`, so sql.js raises a constraint error when the link
is already present in the table — for any user.  The AUTOINCREMENT id and the
`datetime('now')` default for `fetched_at` are explicit arguments. -/
def articleQueries.create (db : DB) (user_id : String) (source_id : Nat)
    (source_name title link summary published_at fetched_at : String) :
    Except String DB :=
  if db.articles.any (fun a => a.link = link) then
    Except.error "UNIQUE constraint failed: articles.link"
  else
    Except.ok { db with
      articles := db.articles ++
        [⟨db.nextArticleId, user_id, source_id, source_name, title, link,
          summary, published_at, fetched_at⟩],
      nextArticleId := db.nextArticleId + 1 }

/-- `articleQueries.findByUser`:
`SELECT * FROM articles WHERE user_id = ? ORDER BY published_at DESC`. -/
def articleQueries.findByUser (db : DB) (user_id : String) : List Article :=
  List.insertionSort publishedGe (db.articles.filter (fun a => a.user_id = user_id))

/-- `articleQueries.countByUser`:
`SELECT COUNT(*) FROM articles WHERE user_id = ?`. -/
def articleQueries.countByUser (db : DB) (user_id : String) : Nat :=
  (db.articles.filter (fun a => a.user_id = user_id)).length

/-- `articleQueries.deleteOldest`: `DELETE FROM articles WHERE id IN
(SELECT id FROM articles WHERE user_id = ? ORDER BY fetched_at ASC LIMIT ?)`. -/
def articleQueries.deleteOldest (db : DB) (user_id : String) (count : Nat) : DB :=
  let doomed :=
    (((List.insertionSort fetchedLe
        (db.articles.filter (fun a => a.user_id = user_id))).take count).map
      (fun a => a.id))
  { db with articles := db.articles.filter (fun a => ¬ a.id ∈ doomed) }

/-- An item produced by `fetchSource` from a parsed RSS feed
(`server.js`, `fetchSource`): title, link, pubDate and content snippet. -/
structure Item where
  title : String
  link : String
  published : String
  content : String
deriving DecidableEq, Repr

/-- `summarizeArticle` (`server.js` lines 60-63):
`if (!content) return ''; return content.substring(0, 150)`. -/
def summarizeArticle (content : String) : String :=
  if content = "" then "" else jsTake content 150

/-- `summarize` (`src/utils/ai.js` lines 6-11):
`if (!text) return ''; return text.slice(0, 150) + (text.length > 150 ? ellipsis : '')`. -/
def summarize (text : String) : String :=
  if text = "" then ""
  else jsTake text 150 ++ (if 150 < jsLength text then "…" else "")

/-- `MAX_ARTICLES` (`server.js` line 286). -/
def MAX_ARTICLES : Nat := 200

/-- `fetchSource` (`server.js` lines 65-76): for an `rss` source the items come
from `parser.parseURL(source.url)`, which can fail; every other type yields
`[]`.  The network is an oracle mapping the source id to the outcome of
`parseURL` for that source's URL. -/
def fetchSource (net : Nat → Except String (List Item)) (src : Source) :
    Except String (List Item) :=
  if src.type = "rss" then net src.id else Except.ok []

/-- The inner item loop of `fetchArticles` (`server.js` lines 306-313) for one
source: skip when the link is in `existingLinks`, otherwise insert and record
the link.  An insertion error (the UNIQUE link constraint) is thrown; the
source-level `catch` then abandons the remaining items of this source while
keeping the rows already inserted (each `create` saves the database). -/
def processItems (userId : String) (src : Source) (fetchedAt : String) :
    List Item → List String → DB → Nat → List String × DB × Nat
  | [], links, db, n => (links, db, n)
  | it :: rest, links, db, n =>
    if it.link ∈ links then
      processItems userId src fetchedAt rest links db n
    else
      match articleQueries.create db userId src.id src.name it.title it.link
          (summarizeArticle it.content) it.published fetchedAt with
      | Except.ok db2 =>
        processItems userId src fetchedAt rest (it.link :: links) db2 (n + 1)
      | Except.error _ => (links, db, n)

/-- One iteration of the source loop of `fetchArticles` (`server.js` lines
301-317): fetch the source inside `try`/`catch`; a fetch error leaves the
state untouched. -/
def processSource (userId : String) (net : Nat → Except String (List Item))
    (fetchedAt : String) (acc : List String × DB × Nat) (src : Source) :
    List String × DB × Nat :=
  match fetchSource net src with
  | Except.error _ => acc
  | Except.ok items => processItems userId src fetchedAt items acc.1 acc.2.1 acc.2.2

/-- The pruning step of `fetchArticles` (`server.js` lines 319-323): when the
user's article count exceeds `MAX_ARTICLES`, delete the excess oldest rows. -/
def pruneArticles (db : DB) (userId : String) : DB :=
  let c := articleQueries.countByUser db userId
  if MAX_ARTICLES < c then articleQueries.deleteOldest db userId (c - MAX_ARTICLES)
  else db

/-- The process-wide server state: the module-level `isRunning` flag
(`server.js` line 287) and the database. -/
structure ServerState where
  isRunning : Bool
  db : DB
deriving DecidableEq, Repr

/-- Result object of `fetchArticles`. -/
structure FetchResult where
  success : Bool
  message : String
deriving DecidableEq, Repr

/-- `fetchArticles(userId)` (`server.js` lines 289-334).  `net` is the RSS
network oracle and `fetchedAt` the `datetime('now')` value used for the
inserted rows. -/
def fetchArticles (st : ServerState) (userId : String)
    (net : Nat → Except String (List Item)) (fetchedAt : String) :
    ServerState × FetchResult :=
  if st.isRunning then (st, ⟨false, "Fetch already in progress"⟩)
  else
    let sources := (sourceQueries.findByUser st.db userId).filter (fun s => s.enabled)
    let existingLinks := (articleQueries.findByUser st.db userId).map (fun a => a.link)
    let res := sources.foldl (processSource userId net fetchedAt) (existingLinks, st.db, 0)
    let db2 := pruneArticles res.2.1 userId
    ({ isRunning := false, db := db2 },
      ⟨true, "Fetched " ++ toString res.2.2 ++ " new articles. Total: " ++
        toString (articleQueries.countByUser db2 userId)⟩)

/-- Response of `POST /api/auth/register` (`server.js` lines 125-157). -/
inductive RegisterResult where
  | missingFields
  | emailExists
  | ok (userId email : String)
deriving DecidableEq, Repr

/-- `POST /api/auth/register` (`server.js` lines 125-157): empty email or
password is rejected; the duplicate check and the stored email both use the
lowercased email.  The generated user id and the bcrypt hash are explicit
arguments. -/
def registerRoute (db : DB) (newId hashed email password : String) :
    DB × RegisterResult :=
  if email = "" ∨ password = "" then (db, RegisterResult.missingFields)
  else
    match userQueries.findByEmail db (jsToLower email) with
    | some _ => (db, RegisterResult.emailExists)
    | none =>
      (userQueries.create db newId (jsToLower email) hashed,
        RegisterResult.ok newId (jsToLower email))

/-- Response of `DELETE /api/sources/:id`. -/
inductive DeleteSourceResult where
  | notFound
  | ok
deriving DecidableEq, Repr

/-- `DELETE /api/sources/:id` (`server.js` lines 262-274): run
`sourceQueries.delete(id, userId)` and answer 404 `Source not found` when no
row was modified. -/
def deleteSourceRoute (db : DB) (userId : String) (id : Nat) :
    DB × DeleteSourceResult :=
  let r := sourceQueries.delete db id userId
  if r.2 = 0 then (r.1, DeleteSourceResult.notFound) else (r.1, DeleteSourceResult.ok)

/-- `GET /api/feed` (`server.js` lines 276-284): the current user's articles. -/
def apiFeed (db : DB) (userId : String) : List Article :=
  articleQueries.findByUser db userId

/-- `GET /api/sources` (`server.js` lines 209-217): the current user's sources. -/
def apiSources (db : DB) (userId : String) : List Source :=
  sourceQueries.findByUser db userId

/-- Split a character list at every `'.'` (the dotted components of a
hostname); used to embed the anchored dotted-quad regexes of the
`privatePatterns` list. -/
def splitOnDot : List Char → List (List Char)
  | [] => [[]]
  | c :: cs =>
    if c = '.' then [] :: splitOnDot cs
    else
      match splitOnDot cs with
      | [] => [[c]]
      | g :: gs => (c :: g) :: gs

/-- One `\d+` block: a nonempty run of ASCII digits. -/
def digitsBlock (l : List Char) : Bool :=
  decide (l ≠ []) && l.all (fun c => c.isDigit)

/-- Regex `^F\.\d+\.\d+\.\d+$` for a literal first octet `F`
(the `127.`, `0.`, `10.` patterns). -/
def quadPattern (first : String) (h : String) : Bool :=
  match splitOnDot h.data with
  | [p, a, b, c] =>
    decide (p = first.data) && digitsBlock a && digitsBlock b && digitsBlock c
  | _ => false

/-- Regex `^F\.S\.\d+\.\d+$` for two literal leading octets
(the `192.168.` pattern). -/
def quadPattern2 (first second : String) (h : String) : Bool :=
  match splitOnDot h.data with
  | [p, q, a, b] =>
    decide (p = first.data) && decide (q = second.data) &&
      digitsBlock a && digitsBlock b
  | _ => false

/-- The strings matched by the regex alternation `(1[6-9]|2\d|3[01])`. -/
def octet16to31 (x : List Char) : Bool :=
  (["16", "17", "18", "19", "20", "21", "22", "23", "24", "25", "26", "27",
    "28", "29", "30", "31"]).any (fun s => decide (x = s.data))

/-- Regex `^172\.(1[6-9]|2\d|3[01])\.\d+\.\d+$`. -/
def pat172 (h : String) : Bool :=
  match splitOnDot h.data with
  | [p, x, a, b] =>
    decide (p = "172".data) && octet16to31 x && digitsBlock a && digitsBlock b
  | _ => false

/-- Regex `\.local$` (the hostname is already lowercased by the route). -/
def patDotLocal (h : String) : Bool :=
  decide (".local".data <:+ h.data)

/-- The `privatePatterns` array of `POST /api/sources` (`server.js` lines
238-248): `hostname` has already been lowercased, so the `/i` flags reduce to
exact matches. -/
def privateHostname (h : String) : Bool :=
  ([fun x => decide (x = "localhost"),
    quadPattern "127",
    fun x => decide (x = "::1"),
    quadPattern "0",
    quadPattern "10",
    pat172,
    quadPattern2 "192" "168",
    patDotLocal,
    fun x => decide (x = "localhost.localdomain")] :
      List (String → Bool)).any (fun p => p h)

/-- The outcome of `new URL(url)` when parsing succeeds: the WHATWG-normalised
protocol (with trailing colon) and hostname. -/
structure ParsedUrl where
  protocol : String
  hostname : String
deriving DecidableEq, Repr

/-- Response of `POST /api/sources`. -/
inductive PostSourceResult where
  | missingFields
  | invalidUrl
  | badProtocol
  | privateBlocked
  | created (id : Nat)
deriving DecidableEq, Repr

/-- `POST /api/sources` (`server.js` lines 219-260).  `parsed` is the outcome
of `new URL(url)` (a Node platform call): `none` when the constructor throws.
On success the source is inserted with `enabled = 1`. -/
def postSourcesRoute (db : DB) (userId name url type : String)
    (parsed : Option ParsedUrl) (newId : Nat) (now : String) :
    DB × PostSourceResult :=
  if name = "" ∨ url = "" ∨ type = "" then (db, PostSourceResult.missingFields)
  else
    match parsed with
    | none => (db, PostSourceResult.invalidUrl)
    | some pu =>
      if ¬(pu.protocol = "http:" ∨ pu.protocol = "https:") then
        (db, PostSourceResult.badProtocol)
      else if privateHostname (jsToLower pu.hostname) then
        (db, PostSourceResult.privateBlocked)
      else
        (sourceQueries.create db userId name url type true newId now,
          PostSourceResult.created newId)

/-! Spec-side hostname classes, written from the wording of the claim: these
are the address classes the specification names, used to compare against the
code's `privatePatterns`. -/

/-- A nonempty all-digit octet (spec side). -/
def DecimalOctet (l : List Char) : Prop :=
  l ≠ [] ∧ ∀ c ∈ l, c.isDigit = true

/-- A dotted quad whose first octet is the literal `first` and whose remaining
three octets are decimal (spec side). -/
def DottedQuad (first : String) (h : String) : Prop :=
  ∃ a b c, splitOnDot h.data = [first.data, a, b, c] ∧
    DecimalOctet a ∧ DecimalOctet b ∧ DecimalOctet c

/-- Spec class: loopback hostnames — `localhost`, `localhost.localdomain`,
IPv6 `::1` and the IPv4 `127.0.0.0/8` dotted quads. -/
def SpecLoopback (h : String) : Prop :=
  h = "localhost" ∨ h = "localhost.localdomain" ∨ h = "::1" ∨ DottedQuad "127" h

/-- Spec class: the `0.0.0.0/8` dotted quads ("this network"). -/
def SpecZeroNet (h : String) : Prop :=
  DottedQuad "0" h

/-- Spec class: RFC1918 private dotted quads — `10.0.0.0/8`,
`172.16.0.0/12` (second octet a canonical two-digit decimal 16–31) and
`192.168.0.0/16`. -/
def SpecRfc1918 (h : String) : Prop :=
  DottedQuad "10" h ∨
  (∃ x a b, splitOnDot h.data = ["172".data, x, a, b] ∧
    (∃ n, 16 ≤ n ∧ n ≤ 31 ∧ x = (toString n).data) ∧
    DecimalOctet a ∧ DecimalOctet b) ∨
  (∃ a b, splitOnDot h.data = ["192".data, "168".data, a, b] ∧
    DecimalOctet a ∧ DecimalOctet b)

/-- Spec class: hostnames ending in `.local`. -/
def SpecDotLocal (h : String) : Prop :=
  ∃ pre, h.data = pre ++ ".local".data

/-- The full set of hostname classes the code's validation blocks, in the
spec's vocabulary. -/
def SpecBlockedHostname (h : String) : Prop :=
  SpecLoopback h ∨ SpecZeroNet h ∨ SpecRfc1918 h ∨ SpecDotLocal h

/-- Spec class: IPv4 link-local (`169.254.0.0/16`) dotted quads — named by the
claim as one of the blocked classes. -/
def isLinkLocalHostname (h : String) : Bool :=
  quadPattern2 "169" "254" h

/-- HTTP status of a `POST /api/sources` response (`res.status(400)` on every
rejection, default 200 on success). -/
def statusOfPostSource : PostSourceResult → Nat
  | PostSourceResult.created _ => 200
  | _ => 400

/-! Concrete states used by witnesses and counterexamples. -/

/-- A database holding one article of user `"A"` with link `"L"`, and one
enabled RSS source belonging to user `"B"`. -/
def dbCrossLink : DB :=
  ⟨[], [⟨5, "B", "s", "http://example.com/f", "rss", true, "c"⟩],
    [⟨0, "A", 1, "sa", "ta", "L", "", "", ""⟩], 1⟩

/-- A network oracle delivering a single item whose link is `"L"`. -/
def netLinkL : Nat → Except String (List Item) :=
  fun _ => Except.ok [⟨"t2", "L", "2024", "body"⟩]

/-- A 151-character string. -/
def longText : String := String.mk (List.replicate 151 'a')

/-- A server state whose fetch flag is set. -/
def stBusy : ServerState := ⟨true, ⟨[], [], [], 0⟩⟩

/-- A small database for user `"u"`. -/
def dbSmallU : DB :=
  ⟨[], [⟨1, "u", "n", "http://example.com/a", "rss", true, "c1"⟩],
    [⟨1, "u", 1, "n", "t1", "l1", "s1", "p1", "f1"⟩], 2⟩

/-- `dbSmallU` with additional rows belonging to user `"v"`. -/
def dbSmallUV : DB :=
  ⟨[], [⟨1, "u", "n", "http://example.com/a", "rss", true, "c1"⟩,
        ⟨2, "v", "m", "http://example.com/b", "rss", true, "c2"⟩],
    [⟨1, "u", 1, "n", "t1", "l1", "s1", "p1", "f1"⟩,
     ⟨2, "v", 2, "m", "t2", "l2", "s2", "p2", "f2"⟩], 3⟩

/-- A database with one registered user whose email is stored lowercased. -/
def dbOneUser : DB :=
  ⟨[⟨"id1", "a@b.c", "hash1"⟩], [], [], 0⟩

/-- The `i`-th generated article of user `"u"` (distinct id, link and
fetch time). -/
def genArticle (i : Nat) : Article :=
  ⟨i, "u", 0, "s", "t", toString i, "", "", toString i⟩

/-- A database with 201 articles of user `"u"`. -/
def dbOverCap : DB :=
  ⟨[], [], (List.range 201).map genArticle, 201⟩

/-- A network oracle delivering one fresh item for any source. -/
def netFresh : Nat → Except String (List Item) :=
  fun _ => Except.ok [⟨"tf", "http://example.com/fresh", "2024", "body"⟩]

/-! ### Shared helper lemmas -/

/-- ASCII lowercasing is idempotent on characters. -/
theorem charToLowerIdem (c : Char) : c.toLower.toLower = c.toLower := by
  simp only [Char.toLower]
  by_cases h : 65 ≤ c.toNat ∧ c.toNat ≤ 90
  · rw [if_pos h]
    obtain ⟨h1, h2⟩ := h
    generalize c.toNat = n at h1 h2
    interval_cases n <;> decide
  · rw [if_neg h, if_neg h]

/-- JS `toLowerCase` is idempotent. -/
theorem jsToLowerIdem (s : String) : jsToLower (jsToLower s) = jsToLower s := by
  simp [jsToLower, List.map_map, Function.comp_def, charToLowerIdem]

theorem stringMkData (s : String) : String.mk s.data = s := rfl

theorem lengthFilterSplit (p : α → Bool) :
    ∀ l : List α, l.length = (l.filter p).length + (l.filter (fun a => !(p a))).length
  | [] => rfl
  | a :: l => by
    cases h : p a <;>
      simp [List.filter_cons, h, lengthFilterSplit p l] <;> omega

/-! ### C4: the fetch re-entrancy guard -/

/-- C4.  The fetch guard is process-wide: whatever user either fetch is for,
a call made while `isRunning` is set returns
`{ success: false, message: 'Fetch already in progress' }` and leaves the
whole server state (flag and database) unchanged; and a fetch that does run
leaves `isRunning` cleared when it finishes (the `finally` block; in this
embedding the `catch`-and-return-failure path of the body is unreachable, so
the completed run is the success path). -/
theorem fetchGuardProcessWide (st : ServerState) (userId : String)
    (net : Nat → Except String (List Item)) (fetchedAt : String) :
    (st.isRunning = true →
      fetchArticles st userId net fetchedAt =
        (st, ⟨false, "Fetch already in progress"⟩)) ∧
    (st.isRunning = false →
      (fetchArticles st userId net fetchedAt).1.isRunning = false) := by
  constructor <;> intro h <;> simp [fetchArticles, h]

/-- Witness for C4 at a concrete busy state. -/
theorem fetchGuardProcessWideWitness :
    fetchArticles stBusy "u" netFresh "t" =
      (stBusy, ⟨false, "Fetch already in progress"⟩) :=
  (fetchGuardProcessWide stBusy "u" netFresh "t").1 rfl

/-! ### C5: summary truncation -/

set_option maxRecDepth 10000 in
/-- C5 counterexample.  The claim says every stored summary equals the first
150 characters of the content and has length at most 150; the cited
`summarize` of `src/utils/ai.js` appends an ellipsis character when the
content is longer than 150 characters, so on a 151-character text the summary
has length 151 and differs from the 150-character prefix. -/
theorem summarizeEllipsisCounterexample :
    (summarize longText).length = 151 ∧ ¬ summarize longText = jsTake longText 150 := by
  constructor
  · decide
  · decide

/-- C5 amended.  `summarizeArticle` (the SQLite server) returns exactly the
150-character prefix of the content — so its result has length at most 150,
is the whole content when that is short, and is empty on empty content —
while the legacy `summarize` of `src/utils/ai.js` returns the 150-character
prefix with an ellipsis appended when the content is longer than 150
characters, so its result can have length 151. -/
theorem summaryTruncation (c : String) :
    summarizeArticle c = jsTake c 150 ∧
    (summarizeArticle c).length ≤ 150 ∧
    (c.length ≤ 150 → summarizeArticle c = c) ∧
    summarize c = jsTake c 150 ++ (if 150 < c.length then "…" else "") ∧
    (summarize c).length ≤ 151 := by
  have htake : ∀ n : Nat, (jsTake c n).length = min n c.length := by
    intro n
    show (c.data.take n).length = min n c.data.length
    exact List.length_take n c.data
  have hart : summarizeArticle c = jsTake c 150 := by
    by_cases hc : c = ""
    · subst hc; rfl
    · simp [summarizeArticle, hc]
  have hsum : summarize c = jsTake c 150 ++ (if 150 < c.length then "…" else "") := by
    by_cases hc : c = ""
    · subst hc; rfl
    · simp [summarize, jsLength, hc]
  refine ⟨hart, ?_, ?_, hsum, ?_⟩
  · rw [hart, htake]; omega
  · intro hle
    rw [hart]
    show String.mk (c.data.take 150) = c
    rw [List.take_of_length_le hle, stringMkData]
  · rw [hsum]
    have h1 : (jsTake c 150).length ≤ 150 := by rw [htake]; omega
    have h2 : (if 150 < c.length then "…" else "" : String).length ≤ 1 := by
      split <;> decide
    calc (jsTake c 150 ++ if 150 < c.length then "…" else "").length
        = (jsTake c 150).length + (if 150 < c.length then "…" else "" : String).length :=
          String.length_append _ _
      _ ≤ 151 := by omega

/-- Witness for C5's amended theorem at a concrete short content. -/
theorem summaryTruncationWitness : summarizeArticle "ab" = "ab" :=
  (summaryTruncation "ab").2.2.1 (by decide)

/-! ### C8: feed ordering -/

/-- C8.  The article list returned by `GET /api/feed` is ordered by the
query's `ORDER BY published_at DESC`: every adjacent pair is non-increasing
in `published_at`. -/
theorem feedSortedNewestFirst (db : DB) (userId : String) :
    (apiFeed db userId).Chain' (fun a b => b.published_at ≤ a.published_at) := by
  have h := List.sorted_insertionSort publishedGe
    (db.articles.filter (fun a => a.user_id = userId))
  exact List.Pairwise.chain' h

/-! ### C7: per-user feeds (noninterference of the read path) -/

/-- C7.  `GET /api/feed` returns exactly the articles whose `user_id` is the
authenticated user, `GET /api/sources` exactly that user's sources, and both
responses depend only on that user's rows: two databases that agree on the
user's rows produce identical responses, whatever the other users' rows. -/
theorem feedPerUserNoninterference (db db2 : DB) (u : String)
    (hA : db.articles.filter (fun a => a.user_id = u) =
      db2.articles.filter (fun a => a.user_id = u))
    (hS : db.sources.filter (fun s => s.user_id = u) =
      db2.sources.filter (fun s => s.user_id = u)) :
    apiFeed db u = apiFeed db2 u ∧ apiSources db u = apiSources db2 u ∧
    (∀ a, a ∈ apiFeed db u ↔ a ∈ db.articles ∧ a.user_id = u) ∧
    (∀ s, s ∈ apiSources db u ↔ s ∈ db.sources ∧ s.user_id = u) := by
  refine ⟨?_, ?_, ?_, ?_⟩
  · show List.insertionSort publishedGe _ = List.insertionSort publishedGe _
    rw [hA]
  · show List.insertionSort createdGe _ = List.insertionSort createdGe _
    rw [hS]
  · intro a
    rw [show apiFeed db u = List.insertionSort publishedGe
        (db.articles.filter (fun x => x.user_id = u)) from rfl,
      (List.perm_insertionSort publishedGe _).mem_iff]
    simp [List.mem_filter]
  · intro s
    rw [show apiSources db u = List.insertionSort createdGe
        (db.sources.filter (fun x => x.user_id = u)) from rfl,
      (List.perm_insertionSort createdGe _).mem_iff]
    simp [List.mem_filter]

/-- Witness for C7: adding rows of user `"v"` leaves user `"u"`'s feed and
source list unchanged. -/
theorem feedPerUserNoninterferenceWitness :
    apiFeed dbSmallU "u" = apiFeed dbSmallUV "u" ∧
    apiSources dbSmallU "u" = apiSources dbSmallUV "u" :=
  ⟨(feedPerUserNoninterference dbSmallU dbSmallUV "u" (by decide) (by decide)).1,
    (feedPerUserNoninterference dbSmallU dbSmallUV "u" (by decide) (by decide)).2.1⟩

/-! ### C9: email uniqueness up to case -/

/-- C9.  Registration lowercases the email before the duplicate check and
before storing, so (given the invariant that stored emails are lowercased and
pairwise distinct ignoring case, which registration itself maintains from the
empty table) registering an email that is already present in any casing
returns 400 `Email already exists` with the users table unchanged, and the
invariant that no two users have emails equal ignoring case is preserved. -/
theorem registerEmailUniqueIgnoringCase (db : DB) (newId hashed email password : String)
    (hlow : ∀ u ∈ db.users, jsToLower u.email = u.email)
    (hdist : db.users.Pairwise (fun a b => ¬ jsToLower a.email = jsToLower b.email)) :
    ((∃ u ∈ db.users, jsToLower u.email = jsToLower email) → ¬ email = "" →
      ¬ password = "" →
      registerRoute db newId hashed email password = (db, RegisterResult.emailExists)) ∧
    (∀ u ∈ (registerRoute db newId hashed email password).1.users,
      jsToLower u.email = u.email) ∧
    ((registerRoute db newId hashed email password).1.users.Pairwise
      (fun a b => ¬ jsToLower a.email = jsToLower b.email)) := by
  by_cases h0 : email = "" ∨ password = ""
  · have hr : registerRoute db newId hashed email password =
        (db, RegisterResult.missingFields) := by
      simp [registerRoute, h0]
    refine ⟨?_, ?_, ?_⟩
    · intro _ he hp
      rcases h0 with h | h
      · exact absurd h he
      · exact absurd h hp
    · rw [hr]; exact hlow
    · rw [hr]; exact hdist
  · cases hfe : userQueries.findByEmail db (jsToLower email) with
    | some u =>
      have hr : registerRoute db newId hashed email password =
          (db, RegisterResult.emailExists) := by
        simp [registerRoute, h0, hfe]
      exact ⟨fun _ _ _ => hr, by rw [hr]; exact hlow, by rw [hr]; exact hdist⟩
    | none =>
      have hnone : ∀ u ∈ db.users, ¬ u.email = jsToLower email := by
        intro u hu
        have := List.find?_eq_none.mp hfe u hu
        simpa using this
      have hr : registerRoute db newId hashed email password =
          (userQueries.create db newId (jsToLower email) hashed,
            RegisterResult.ok newId (jsToLower email)) := by
        simp [registerRoute, h0, hfe]
      refine ⟨?_, ?_, ?_⟩
      · rintro ⟨u, hu, hlu⟩ _ _
        have h1 : jsToLower u.email = u.email := hlow u hu
        exact absurd (h1 ▸ hlu) (hnone u hu)
      · rw [hr]
        show ∀ u ∈ db.users ++ [(⟨newId, jsToLower email, hashed⟩ : User)],
          jsToLower u.email = u.email
        intro u hu
        rcases List.mem_append.mp hu with h | h
        · exact hlow u h
        · rcases List.mem_singleton.mp h with rfl
          exact jsToLowerIdem email
      · rw [hr]
        show (db.users ++ [(⟨newId, jsToLower email, hashed⟩ : User)]).Pairwise _
        rw [List.pairwise_append]
        refine ⟨hdist, List.pairwise_singleton _ _, ?_⟩
        intro u hu v hv
        rcases List.mem_singleton.mp hv with rfl
        show ¬ jsToLower u.email = jsToLower (jsToLower email)
        rw [jsToLowerIdem, hlow u hu]
        exact hnone u hu

/-- Witness for C9: re-registering `a@b.c` as `A@B.C` is rejected and leaves
the table unchanged. -/
theorem registerEmailUniqueIgnoringCaseWitness :
    registerRoute dbOneUser "id2" "hash2" "A@B.C" "pw" =
      (dbOneUser, RegisterResult.emailExists) :=
  (registerEmailUniqueIgnoringCase dbOneUser "id2" "hash2" "A@B.C" "pw"
      (by decide) (by decide)).1
    (⟨⟨"id1", "a@b.c", "hash1"⟩, by decide, by decide⟩ :
      ∃ u ∈ dbOneUser.users, jsToLower u.email = jsToLower "A@B.C")
    (by decide) (by decide)

/-! ### C10: scoped source deletion -/

/-- C10.  `DELETE /api/sources/:id` removes exactly the sources with the given
id owned by the authenticated user; when no such source exists (in particular
when the id belongs to another user) it answers 404 `Source not found` with
the database unchanged; and in every case other users' sources and the user's
other sources survive. -/
theorem deleteSourceScoped (db : DB) (u : String) (id : Nat) :
    ((deleteSourceRoute db u id).1.sources =
      db.sources.filter (fun s => ¬(s.id = id ∧ s.user_id = u))) ∧
    ((∀ s ∈ db.sources, ¬(s.id = id ∧ s.user_id = u)) →
      deleteSourceRoute db u id = (db, DeleteSourceResult.notFound)) ∧
    ((deleteSourceRoute db u id).1.sources.filter (fun s => ¬ s.user_id = u) =
      db.sources.filter (fun s => ¬ s.user_id = u)) ∧
    (∀ s ∈ db.sources, s.user_id = u → ¬ s.id = id →
      s ∈ (deleteSourceRoute db u id).1.sources) := by
  have hfst : (deleteSourceRoute db u id).1 =
      { db with sources := db.sources.filter (fun s => ¬(s.id = id ∧ s.user_id = u)) } := by
    rw [deleteSourceRoute]
    split <;> rfl
  refine ⟨by rw [hfst], ?_, ?_, ?_⟩
  · intro hnone
    have hself : db.sources.filter (fun s => ¬(s.id = id ∧ s.user_id = u)) =
        db.sources :=
      List.filter_eq_self.mpr (fun s hs => by
        simp only [decide_eq_true_eq]
        exact hnone s hs)
    rw [deleteSourceRoute]
    rw [show sourceQueries.delete db id u =
      ({ db with sources := db.sources.filter (fun s => ¬(s.id = id ∧ s.user_id = u)) },
        db.sources.length -
          (db.sources.filter (fun s => ¬(s.id = id ∧ s.user_id = u))).length) from rfl]
    rw [hself]
    simp
  · rw [hfst]
    show (db.sources.filter _).filter _ = _
    rw [List.filter_filter]
    refine List.filter_congr ?_
    intro s _
    by_cases hu : s.user_id = u <;> simp [hu]
  · intro s hs hu hid
    rw [hfst]
    show s ∈ db.sources.filter _
    rw [List.mem_filter]
    exact ⟨hs, by simp [hid]⟩

/-- Witness for C10: deleting an id that no source of the user has answers
404 and changes nothing. -/
theorem deleteSourceScopedWitness :
    deleteSourceRoute dbSmallUV "u" 2 = (dbSmallUV, DeleteSourceResult.notFound) :=
  (deleteSourceScoped dbSmallUV "u" 2).2.1 (by decide)

/-! ### Fetch pipeline lemmas (shared by C1, C2, C6) -/

/-- A successful `articleQueries.create` appends exactly one row, and its link
was stored nowhere in the table (any user's rows included). -/
theorem createOkSpec {db : DB} {u : String} {sid : Nat}
    {sn ti l sm p f : String} {db2 : DB}
    (h : articleQueries.create db u sid sn ti l sm p f = Except.ok db2) :
    db2.articles = db.articles ++
      [⟨db.nextArticleId, u, sid, sn, ti, l, sm, p, f⟩] ∧
    ∀ b ∈ db.articles, ¬ b.link = l := by
  rw [articleQueries.create] at h
  split at h
  · exact absurd h (by simp)
  · next hany =>
    refine ⟨?_, ?_⟩
    · have := congrArg DB.articles (Except.ok.inj h)
      simpa using this.symm
    · intro b hb hl
      exact hany (List.any_eq_true.mpr ⟨b, hb, by simp [hl]⟩)

/-- The item loop only appends rows: they belong to the fetching user, carry
the processed source's id, and have links that were absent from the whole
table when the loop started. -/
theorem processItemsSpec (u : String) (src : Source) (t : String) :
    ∀ (items : List Item) (links : List String) (db : DB) (n : Nat),
      ∃ extra,
        (processItems u src t items links db n).2.1.articles =
          db.articles ++ extra ∧
        ∀ a ∈ extra, a.user_id = u ∧ a.source_id = src.id ∧
          ∀ b ∈ db.articles, ¬ b.link = a.link
  | [], links, db, n => ⟨[], by simp [processItems], by simp⟩
  | it :: rest, links, db, n => by
    rw [processItems]
    split
    · exact processItemsSpec u src t rest links db n
    · cases hc : articleQueries.create db u src.id src.name it.title it.link
          (summarizeArticle it.content) it.published t with
      | error e =>
        exact ⟨[], by simp, by simp⟩
      | ok db2 =>
        obtain ⟨hart, hfresh⟩ := createOkSpec hc
        obtain ⟨extra2, h2a, h2p⟩ :=
          processItemsSpec u src t rest (it.link :: links) db2 (n + 1)
        refine ⟨(⟨db.nextArticleId, u, src.id, src.name, it.title, it.link,
          summarizeArticle it.content, it.published, t⟩ : Article) :: extra2,
          ?_, ?_⟩
        · rw [h2a, hart]
          simp
        · intro a ha
          rcases List.mem_cons.mp ha with rfl | ha
          · exact ⟨rfl, rfl, hfresh⟩
          · obtain ⟨hu, hs, hf⟩ := h2p a ha
            refine ⟨hu, hs, ?_⟩
            intro b hb
            exact hf b (by rw [hart]; exact List.mem_append_left _ hb)

/-- The item loop preserves global distinctness of stored links. -/
theorem processItemsNodup (u : String) (src : Source) (t : String) :
    ∀ (items : List Item) (links : List String) (db : DB) (n : Nat),
      (db.articles.map (fun a => a.link)).Nodup →
      ((processItems u src t items links db n).2.1.articles.map
        (fun a => a.link)).Nodup
  | [], links, db, n, h => by simpa [processItems] using h
  | it :: rest, links, db, n, h => by
    rw [processItems]
    split
    · exact processItemsNodup u src t rest links db n h
    · cases hc : articleQueries.create db u src.id src.name it.title it.link
          (summarizeArticle it.content) it.published t with
      | error e =>
        simpa using h
      | ok db2 =>
        obtain ⟨hart, hfresh⟩ := createOkSpec hc
        apply processItemsNodup u src t rest (it.link :: links) db2 (n + 1)
        rw [hart]
        simp only [List.map_append, List.map_cons, List.map_nil]
        rw [List.nodup_append]
        refine ⟨h, List.nodup_singleton _, ?_⟩
        intro l hl hl2
        rcases List.mem_singleton.mp hl2 with rfl
        obtain ⟨b, hb, hbl⟩ := List.mem_map.mp hl
        exact hfresh b hb hbl

/-- The source loop only appends rows: they belong to the fetching user, come
from one of the folded sources, and their links were absent from the whole
table when the loop started. -/
theorem foldlProcessSpec (u : String) (net : Nat → Except String (List Item))
    (t : String) :
    ∀ (srcs : List Source) (acc : List String × DB × Nat),
      ∃ extra,
        (srcs.foldl (processSource u net t) acc).2.1.articles =
          acc.2.1.articles ++ extra ∧
        ∀ a ∈ extra, a.user_id = u ∧ (∃ s ∈ srcs, a.source_id = s.id) ∧
          ∀ b ∈ acc.2.1.articles, ¬ b.link = a.link
  | [], acc => ⟨[], by simp, by simp⟩
  | src :: srcs, acc => by
    rw [List.foldl_cons]
    have hstep : ∃ e1, (processSource u net t acc src).2.1.articles =
        acc.2.1.articles ++ e1 ∧
        ∀ a ∈ e1, a.user_id = u ∧ a.source_id = src.id ∧
          ∀ b ∈ acc.2.1.articles, ¬ b.link = a.link := by
      rw [processSource]
      cases hfs : fetchSource net src with
      | error e => exact ⟨[], by simp, by simp⟩
      | ok items => exact processItemsSpec u src t items acc.1 acc.2.1 acc.2.2
    obtain ⟨e1, he1, hp1⟩ := hstep
    obtain ⟨e2, he2, hp2⟩ := foldlProcessSpec u net t srcs (processSource u net t acc src)
    refine ⟨e1 ++ e2, by rw [he2, he1, List.append_assoc], ?_⟩
    intro a ha
    rcases List.mem_append.mp ha with h | h
    · obtain ⟨hu, hsid, hfresh⟩ := hp1 a h
      exact ⟨hu, ⟨src, List.mem_cons_self src srcs, hsid⟩, hfresh⟩
    · obtain ⟨hu, ⟨s, hs, hsid⟩, hfresh⟩ := hp2 a h
      refine ⟨hu, ⟨s, List.mem_cons_of_mem src hs, hsid⟩, ?_⟩
      intro b hb
      exact hfresh b (by rw [he1]; exact List.mem_append_left _ hb)

/-- The source loop preserves global distinctness of stored links. -/
theorem foldlProcessNodup (u : String) (net : Nat → Except String (List Item))
    (t : String) :
    ∀ (srcs : List Source) (acc : List String × DB × Nat),
      (acc.2.1.articles.map (fun a => a.link)).Nodup →
      ((srcs.foldl (processSource u net t) acc).2.1.articles.map
        (fun a => a.link)).Nodup
  | [], acc, h => by simpa using h
  | src :: srcs, acc, h => by
    rw [List.foldl_cons]
    apply foldlProcessNodup u net t srcs
    rw [processSource]
    cases hfs : fetchSource net src with
    | error e => simpa using h
    | ok items => exact processItemsNodup u src t items acc.1 acc.2.1 acc.2.2 h

/-- Pruning only removes rows. -/
theorem pruneSublist (db : DB) (u : String) :
    List.Sublist (pruneArticles db u).articles db.articles := by
  rw [pruneArticles]
  split
  · exact List.filter_sublist db.articles
  · exact List.Sublist.refl _

/-- A fetch attempted while the flag is set returns the failure object and
the unchanged state. -/
theorem fetchArticlesBusyEq (st : ServerState) (userId : String)
    (net : Nat → Except String (List Item)) (fetchedAt : String)
    (h : st.isRunning = true) :
    fetchArticles st userId net fetchedAt =
      (st, ⟨false, "Fetch already in progress"⟩) := by
  simp [fetchArticles, h]

/-- The database a completed fetch leaves behind. -/
theorem fetchArticlesRunEq (st : ServerState) (u : String)
    (net : Nat → Except String (List Item)) (t : String)
    (h : st.isRunning = false) :
    (fetchArticles st u net t).1.db =
      pruneArticles
        ((((sourceQueries.findByUser st.db u).filter (fun s => s.enabled)).foldl
          (processSource u net t)
          ((articleQueries.findByUser st.db u).map (fun a => a.link), st.db, 0)).2.1)
        u := by
  simp [fetchArticles, h]

/-! ### C1: link dedup during fetch -/

/-- C1 counterexample.  The claim makes the skip condition depend only on the
same user's stored links and asserts every other item is inserted, but
`articles.link` is globally UNIQUE: user `"B"` has no stored article at all,
fetches an item whose link `"L"` is stored for user `"A"`, and the insert
fails on the constraint, so nothing is inserted for `"B"`. -/
theorem fetchCrossUserLinkCounterexample :
    dbCrossLink.articles.filter (fun a => a.user_id = "B") = [] ∧
    (fetchArticles ⟨false, dbCrossLink⟩ "B" netLinkL "now").1.db.articles.filter
      (fun a => a.user_id = "B") = [] := by
  constructor
  · decide
  · decide

/-- C1 amended.  The dedup set is built from the fetching user's stored
links, but the links column is UNIQUE across the whole table, so an item is
inserted only when its link is absent from every stored article (any user's);
a cross-user collision makes the insert throw and the per-source catch then
abandons the remaining items of that source.  Consequently, when all stored
links are distinct they remain so after any fetch: in particular no two of
one user's stored articles ever share a link, and every article a fetch adds
has a link that no previously stored article (of any user) had. -/
theorem fetchLinkUniqueness (st : ServerState) (u : String)
    (net : Nat → Except String (List Item)) (t : String)
    (hnd : (st.db.articles.map (fun a => a.link)).Nodup) :
    ((((fetchArticles st u net t).1.db.articles.filter
        (fun a => a.user_id = u)).map (fun a => a.link)).Nodup) ∧
    (∀ a ∈ (fetchArticles st u net t).1.db.articles,
      a ∈ st.db.articles ∨ ∀ b ∈ st.db.articles, ¬ b.link = a.link) := by
  by_cases hr : st.isRunning
  · rw [fetchArticlesBusyEq st u net t hr]
    refine ⟨?_, fun a ha => Or.inl ha⟩
    exact ((List.filter_sublist st.db.articles).map (fun a => a.link)).nodup hnd
  · have hfr : st.isRunning = false := by simpa using hr
    rw [fetchArticlesRunEq st u net t hfr]
    obtain ⟨extra, hmid, hprops⟩ :=
      foldlProcessSpec u net t
        ((sourceQueries.findByUser st.db u).filter (fun s => s.enabled))
        ((articleQueries.findByUser st.db u).map (fun a => a.link), st.db, 0)
    have hmidnd :
        (((((sourceQueries.findByUser st.db u).filter (fun s => s.enabled)).foldl
          (processSource u net t)
          ((articleQueries.findByUser st.db u).map (fun a => a.link), st.db,
            0)).2.1).articles.map (fun a => a.link)).Nodup :=
      foldlProcessNodup u net t _ _ hnd
    constructor
    · have h1 := pruneSublist
        ((((sourceQueries.findByUser st.db u).filter (fun s => s.enabled)).foldl
          (processSource u net t)
          ((articleQueries.findByUser st.db u).map (fun a => a.link), st.db, 0)).2.1) u
      exact (((List.filter_sublist _).trans h1).map (fun a => a.link)).nodup hmidnd
    · intro a ha
      have ha2 := (pruneSublist _ u).mem ha
      rw [hmid] at ha2
      rcases List.mem_append.mp ha2 with h | h
      · exact Or.inl h
      · exact Or.inr (hprops a h).2.2

/-- Witness for C1's amended theorem on a concrete state. -/
theorem fetchLinkUniquenessWitness :
    ((((fetchArticles ⟨false, dbSmallU⟩ "u" netFresh "t").1.db.articles.filter
        (fun a => a.user_id = "u")).map (fun a => a.link)).Nodup) :=
  (fetchLinkUniqueness ⟨false, dbSmallU⟩ "u" netFresh "t" (by decide)).1

/-! ### C6: fetch scope -/

/-- C6.  A fetch for user `u` draws only on sources that belong to `u` and
are enabled: every article present after the fetch either was already stored
or belongs to `u` and carries the id of one of `u`'s enabled sources; a
disabled source or another user's source contributes nothing, whatever the
network would return for it. -/
theorem fetchOnlyOwnEnabledSources (st : ServerState) (u : String)
    (net : Nat → Except String (List Item)) (t : String) :
    ∀ a ∈ (fetchArticles st u net t).1.db.articles,
      a ∈ st.db.articles ∨
      (a.user_id = u ∧ ∃ s ∈ st.db.sources, s.user_id = u ∧ s.enabled = true ∧
        a.source_id = s.id) := by
  by_cases hr : st.isRunning
  · rw [fetchArticlesBusyEq st u net t hr]
    exact fun a ha => Or.inl ha
  · have hfr : st.isRunning = false := by simpa using hr
    rw [fetchArticlesRunEq st u net t hfr]
    obtain ⟨extra, hmid, hprops⟩ :=
      foldlProcessSpec u net t
        ((sourceQueries.findByUser st.db u).filter (fun s => s.enabled))
        ((articleQueries.findByUser st.db u).map (fun a => a.link), st.db, 0)
    intro a ha
    have ha2 := (pruneSublist _ u).mem ha
    rw [hmid] at ha2
    rcases List.mem_append.mp ha2 with h | h
    · exact Or.inl h
    · obtain ⟨hu, ⟨s, hs, hsid⟩, _⟩ := hprops a h
      refine Or.inr ⟨hu, s, ?_, ?_, ?_, hsid⟩
      · have h1 := (List.mem_filter.mp hs).1
        have h2 := (List.perm_insertionSort createdGe _).mem_iff.mp h1
        exact (List.mem_filter.mp h2).1
      · have h1 := (List.mem_filter.mp hs).1
        have h2 := (List.perm_insertionSort createdGe _).mem_iff.mp h1
        have h3 := (List.mem_filter.mp h2).2
        simpa using h3
      · exact (List.mem_filter.mp hs).2

/-- Witness for C6: the article a concrete fetch adds is attributed to the
user's enabled source. -/
theorem fetchOnlyOwnEnabledSourcesWitness :
    (⟨2, "u", 1, "n", "tf", "http://example.com/fresh", "body", "2024", "t"⟩ : Article) ∈
        dbSmallU.articles ∨
      ((⟨2, "u", 1, "n", "tf", "http://example.com/fresh", "body", "2024", "t"⟩ :
          Article).user_id = "u" ∧
        ∃ s ∈ dbSmallU.sources, s.user_id = "u" ∧ s.enabled = true ∧
          (⟨2, "u", 1, "n", "tf", "http://example.com/fresh", "body", "2024",
            "t"⟩ : Article).source_id = s.id) :=
  fetchOnlyOwnEnabledSources ⟨false, dbSmallU⟩ "u" netFresh "t"
    ⟨2, "u", 1, "n", "tf", "http://example.com/fresh", "body", "2024", "t"⟩
    (by decide)

/-! ### C2: the 200-article cap -/

/-- `deleteOldest` (with distinct row ids, as AUTOINCREMENT guarantees, and a
budget within the user's row count) deletes exactly `k` rows, all belonging to
the user and minimal in `fetched_at` among the user's rows, and leaves every
other row untouched. -/
theorem deleteOldestSpec (db : DB) (u : String) (k : Nat)
    (hids : (db.articles.map (fun a => a.id)).Nodup)
    (hk : k ≤ articleQueries.countByUser db u) :
    (articleQueries.deleteOldest db u k).articles.length = db.articles.length - k ∧
    articleQueries.countByUser (articleQueries.deleteOldest db u k) u =
      articleQueries.countByUser db u - k ∧
    (articleQueries.deleteOldest db u k).articles.filter (fun a => ¬ a.user_id = u) =
      db.articles.filter (fun a => ¬ a.user_id = u) ∧
    ∀ a ∈ db.articles, ¬ a ∈ (articleQueries.deleteOldest db u k).articles →
      a.user_id = u ∧ ∀ b ∈ (articleQueries.deleteOldest db u k).articles,
        b.user_id = u → a.fetched_at ≤ b.fetched_at := by
  have hnd : db.articles.Nodup := List.Nodup.of_map _ hids
  have hinj : ∀ x ∈ db.articles, ∀ y ∈ db.articles, x.id = y.id → x = y :=
    fun x hx y hy => List.inj_on_of_nodup_map hids hx hy
  set mine := db.articles.filter (fun a => a.user_id = u) with hmineDef
  set sorted := List.insertionSort fetchedLe mine with hsortedDef
  have hperm : List.Perm sorted mine := List.perm_insertionSort fetchedLe mine
  have hminend : mine.Nodup := hnd.filter _
  have hsortnd : sorted.Nodup := hperm.nodup_iff.mpr hminend
  have hcm : articleQueries.countByUser db u = mine.length := rfl
  have hlen : sorted.length = mine.length := hperm.length_eq
  have hkle : k ≤ sorted.length := by rw [hlen]; rw [hcm] at hk; exact hk
  have htklen : (sorted.take k).length = k := List.length_take_of_le hkle
  have hsubmine : ∀ x ∈ sorted, x ∈ db.articles := fun x hx =>
    (List.mem_filter.mp (hperm.mem_iff.mp hx)).1
  have hminman : ∀ x ∈ mine, x.user_id = u := fun x hx => by
    have := (List.mem_filter.mp hx).2
    simpa using this
  have hDel : (articleQueries.deleteOldest db u k).articles =
      db.articles.filter (fun a => ¬ a.id ∈ (sorted.take k).map (fun x => x.id)) := rfl
  have hkey : ∀ a ∈ db.articles,
      (a.id ∈ (sorted.take k).map (fun x => x.id) ↔ a ∈ sorted.take k) := by
    intro a ha
    constructor
    · intro hmem
      obtain ⟨x, hx, hxid⟩ := List.mem_map.mp hmem
      have hx2 : x ∈ db.articles := hsubmine x (List.mem_of_mem_take hx)
      obtain rfl := hinj x hx2 a ha hxid
      exact hx
    · intro hmem
      exact List.mem_map.mpr ⟨a, hmem, rfl⟩
  have hDel2 : (articleQueries.deleteOldest db u k).articles =
      db.articles.filter (fun a => ¬ a ∈ sorted.take k) := by
    rw [hDel]
    refine List.filter_congr ?_
    intro a ha
    rw [decide_eq_decide]
    exact not_congr (hkey a ha)
  have hdisj : ∀ x ∈ sorted.drop k, ¬ x ∈ sorted.take k := by
    have h2 : (sorted.take k ++ sorted.drop k).Nodup := by
      rw [List.take_append_drop]
      exact hsortnd
    have h3 := (List.nodup_append.mp h2).2.2
    intro x hxd hxt
    exact h3 hxt hxd
  have hsplit : sorted = sorted.take k ++ sorted.drop k :=
    (List.take_append_drop k sorted).symm
  have hfilter_gen : ∀ T D : List Article, sorted = T ++ D → (∀ x ∈ D, ¬ x ∈ T) →
      sorted.filter (fun x => ¬ x ∈ T) = D := by
    intro T D hTD hdisj2
    rw [hTD, List.filter_append]
    have hnil : T.filter (fun x => ¬ x ∈ T) = [] :=
      List.filter_eq_nil_iff.mpr (fun x hx => by simp [hx])
    have hself : D.filter (fun x => ¬ x ∈ T) = D :=
      List.filter_eq_self.mpr (fun x hx => by simpa using hdisj2 x hx)
    rw [hnil, hself, List.nil_append]
  have hfilter_sorted :
      sorted.filter (fun x => ¬ x ∈ sorted.take k) = sorted.drop k :=
    hfilter_gen (sorted.take k) (sorted.drop k) hsplit hdisj
  have hmine_len :
      (mine.filter (fun x => ¬ x ∈ sorted.take k)).length = mine.length - k := by
    have hp := hperm.filter (fun x => decide (¬ x ∈ sorted.take k))
    rw [← hp.length_eq, hfilter_sorted, List.length_drop, hlen]
  have hremoved :
      (db.articles.filter (fun a => a ∈ sorted.take k)).length = k := by
    have hpe : List.Perm (db.articles.filter (fun a => a ∈ sorted.take k))
        (sorted.take k) := by
      refine (List.perm_ext_iff_of_nodup (hnd.filter _)
        ((List.take_sublist k sorted).nodup hsortnd)).mpr ?_
      intro x
      rw [List.mem_filter]
      constructor
      · rintro ⟨_, hx⟩
        simpa using hx
      · intro hx
        exact ⟨hsubmine x (List.mem_of_mem_take hx), by simpa using hx⟩
    rw [hpe.length_eq, htklen]
  refine ⟨?_, ?_, ?_, ?_⟩
  · rw [hDel2]
    have hsplitlen := lengthFilterSplit (fun a => decide (¬ a ∈ sorted.take k)) db.articles
    have hcompl : db.articles.filter
        (fun a => !(decide (¬ a ∈ sorted.take k))) =
        db.articles.filter (fun a => a ∈ sorted.take k) := by
      refine List.filter_congr ?_
      intro a _
      simp [decide_not]
    rw [hcompl, hremoved] at hsplitlen
    omega
  · have hc1 : articleQueries.countByUser (articleQueries.deleteOldest db u k) u =
        ((articleQueries.deleteOldest db u k).articles.filter
          (fun a => a.user_id = u)).length := rfl
    rw [hc1, hDel2, List.filter_comm, hmine_len, hcm]
  · rw [hDel2, List.filter_comm]
    refine List.filter_eq_self.mpr ?_
    intro a ha
    obtain ⟨hadb, hano⟩ := List.mem_filter.mp ha
    simp only [decide_eq_true_eq]
    intro hcon
    have : a ∈ mine := hperm.mem_iff.mp (List.mem_of_mem_take hcon)
    have := hminman a this
    simp [this] at hano
  · intro a ha hnotin
    have haTake : a ∈ sorted.take k := by
      by_contra hcon
      apply hnotin
      rw [hDel2, List.mem_filter]
      exact ⟨ha, by simpa using hcon⟩
    have hamine : a ∈ mine := hperm.mem_iff.mp (List.mem_of_mem_take haTake)
    refine ⟨hminman a hamine, ?_⟩
    intro b hb hbu
    rw [hDel2] at hb
    obtain ⟨hbdb, hbnot⟩ := List.mem_filter.mp hb
    have hbnot2 : ¬ b ∈ sorted.take k := by simpa using hbnot
    have hbmine : b ∈ mine := List.mem_filter.mpr ⟨hbdb, by simpa using hbu⟩
    have hbsorted : b ∈ sorted := hperm.mem_iff.mpr hbmine
    have hbdrop : b ∈ sorted.drop k := by
      rw [hsplit] at hbsorted
      rcases List.mem_append.mp hbsorted with h | h
      · exact absurd h hbnot2
      · exact h
    have hpair : List.Pairwise fetchedLe sorted :=
      List.sorted_insertionSort fetchedLe mine
    have hp2 : List.Pairwise fetchedLe (sorted.take k ++ sorted.drop k) := by
      rw [List.take_append_drop]
      exact hpair
    rw [List.pairwise_append] at hp2
    exact hp2.2.2 a haTake b hbdrop

/-- C2.  After the insertion phase of a fetch, `fetchArticles` applies
`pruneArticles`: when the user's article count is at most 200 nothing is
deleted, and when it exceeds 200 exactly `count - 200` rows are deleted, all
belonging to that user and minimal in `fetched_at` (fetch time) among that
user's rows, leaving the user with exactly 200 articles and every other
user's rows untouched.  Row ids are assumed pairwise distinct, as the
AUTOINCREMENT primary key guarantees. -/
theorem prunePolicyCap (db : DB) (u : String)
    (hids : (db.articles.map (fun a => a.id)).Nodup) :
    (articleQueries.countByUser db u ≤ MAX_ARTICLES → pruneArticles db u = db) ∧
    (MAX_ARTICLES < articleQueries.countByUser db u →
      articleQueries.countByUser (pruneArticles db u) u = MAX_ARTICLES ∧
      (pruneArticles db u).articles.length =
        db.articles.length - (articleQueries.countByUser db u - MAX_ARTICLES) ∧
      (pruneArticles db u).articles.filter (fun a => ¬ a.user_id = u) =
        db.articles.filter (fun a => ¬ a.user_id = u) ∧
      ∀ a ∈ db.articles, ¬ a ∈ (pruneArticles db u).articles →
        a.user_id = u ∧ ∀ b ∈ (pruneArticles db u).articles, b.user_id = u →
          a.fetched_at ≤ b.fetched_at) := by
  constructor
  · intro hle
    simp only [pruneArticles]
    rw [if_neg (by omega)]
  · intro hgt
    have hprune : pruneArticles db u =
        articleQueries.deleteOldest db u (articleQueries.countByUser db u - MAX_ARTICLES) := by
      simp only [pruneArticles]
      rw [if_pos hgt]
    obtain ⟨h1, h2, h3, h4⟩ :=
      deleteOldestSpec db u (articleQueries.countByUser db u - MAX_ARTICLES) hids
        (by omega)
    rw [hprune]
    refine ⟨?_, h1, h3, h4⟩
    rw [h2]
    omega

set_option maxRecDepth 40000 in
/-- Witness for C2 on a concrete database with 201 articles of one user. -/
theorem prunePolicyCapWitness :
    MAX_ARTICLES < articleQueries.countByUser dbOverCap "u" ∧
    articleQueries.countByUser (pruneArticles dbOverCap "u") "u" = MAX_ARTICLES :=
  ⟨by decide, ((prunePolicyCap dbOverCap "u" (by decide)).2 (by decide)).1⟩

/-! ### C3: source URL validation -/

theorem digitsBlockIff (l : List Char) : digitsBlock l = true ↔ DecimalOctet l := by
  simp [digitsBlock, DecimalOctet, List.all_eq_true]

theorem quadPatternIff (f h : String) :
    quadPattern f h = true ↔ DottedQuad f h := by
  unfold quadPattern DottedQuad
  cases hs : splitOnDot h.data with
  | nil => simp
  | cons p rest =>
    cases rest with
    | nil => simp
    | cons a rest2 =>
      cases rest2 with
      | nil => simp
      | cons b rest3 =>
        cases rest3 with
        | nil => simp
        | cons c rest4 =>
          cases rest4 with
          | nil =>
            constructor
            · intro hx
              simp only [Bool.and_eq_true, decide_eq_true_eq, digitsBlockIff] at hx
              obtain ⟨⟨⟨hp, ha⟩, hb⟩, hc⟩ := hx
              exact ⟨a, b, c, by rw [hp], ha, hb, hc⟩
            · rintro ⟨a2, b2, c2, heq, ha, hb, hc⟩
              obtain ⟨hp, rfl, rfl, rfl⟩ :
                  p = f.data ∧ a = a2 ∧ b = b2 ∧ c = c2 := by
                simpa using heq
              simp only [Bool.and_eq_true, decide_eq_true_eq, digitsBlockIff]
              exact ⟨⟨⟨hp, ha⟩, hb⟩, hc⟩
          | cons d rest5 => simp

theorem quadPattern2Iff (f g h : String) :
    quadPattern2 f g h = true ↔
      ∃ a b, splitOnDot h.data = [f.data, g.data, a, b] ∧
        DecimalOctet a ∧ DecimalOctet b := by
  unfold quadPattern2
  cases hs : splitOnDot h.data with
  | nil => simp
  | cons p rest =>
    cases rest with
    | nil => simp
    | cons a rest2 =>
      cases rest2 with
      | nil => simp
      | cons b rest3 =>
        cases rest3 with
        | nil => simp
        | cons c rest4 =>
          cases rest4 with
          | nil =>
            constructor
            · intro hx
              simp only [Bool.and_eq_true, decide_eq_true_eq, digitsBlockIff] at hx
              obtain ⟨⟨⟨hp, hq⟩, hb⟩, hc⟩ := hx
              exact ⟨b, c, by rw [hp, hq], hb, hc⟩
            · rintro ⟨a2, b2, heq, ha, hb⟩
              obtain ⟨hp, hq, rfl, rfl⟩ :
                  p = f.data ∧ a = g.data ∧ b = a2 ∧ c = b2 := by
                simpa using heq
              simp only [Bool.and_eq_true, decide_eq_true_eq, digitsBlockIff]
              exact ⟨⟨⟨hp, hq⟩, ha⟩, hb⟩
          | cons d rest5 => simp

theorem octet16to31Iff (x : List Char) :
    octet16to31 x = true ↔ ∃ n, 16 ≤ n ∧ n ≤ 31 ∧ x = (toString n).data := by
  constructor
  · intro hx
    simp only [octet16to31, List.any_cons, List.any_nil, Bool.or_eq_true,
      Bool.or_false, decide_eq_true_eq] at hx
    rcases hx with h | h | h | h | h | h | h | h | h | h | h | h | h | h | h | h
    · exact ⟨16, by omega, by omega, h⟩
    · exact ⟨17, by omega, by omega, h⟩
    · exact ⟨18, by omega, by omega, h⟩
    · exact ⟨19, by omega, by omega, h⟩
    · exact ⟨20, by omega, by omega, h⟩
    · exact ⟨21, by omega, by omega, h⟩
    · exact ⟨22, by omega, by omega, h⟩
    · exact ⟨23, by omega, by omega, h⟩
    · exact ⟨24, by omega, by omega, h⟩
    · exact ⟨25, by omega, by omega, h⟩
    · exact ⟨26, by omega, by omega, h⟩
    · exact ⟨27, by omega, by omega, h⟩
    · exact ⟨28, by omega, by omega, h⟩
    · exact ⟨29, by omega, by omega, h⟩
    · exact ⟨30, by omega, by omega, h⟩
    · exact ⟨31, by omega, by omega, h⟩
  · rintro ⟨n, h1, h2, rfl⟩
    interval_cases n <;> decide

theorem pat172Iff (h : String) :
    pat172 h = true ↔
      ∃ x a b, splitOnDot h.data = ["172".data, x, a, b] ∧
        (∃ n, 16 ≤ n ∧ n ≤ 31 ∧ x = (toString n).data) ∧
        DecimalOctet a ∧ DecimalOctet b := by
  unfold pat172
  cases hs : splitOnDot h.data with
  | nil => simp
  | cons p rest =>
    cases rest with
    | nil => simp
    | cons a rest2 =>
      cases rest2 with
      | nil => simp
      | cons b rest3 =>
        cases rest3 with
        | nil => simp
        | cons c rest4 =>
          cases rest4 with
          | nil =>
            constructor
            · intro hx
              simp only [Bool.and_eq_true, decide_eq_true_eq, digitsBlockIff,
                octet16to31Iff] at hx
              obtain ⟨⟨⟨hp, hn⟩, hb⟩, hc⟩ := hx
              exact ⟨a, b, c, by rw [hp], hn, hb, hc⟩
            · rintro ⟨x2, a2, b2, heq, hn, ha, hb⟩
              obtain ⟨hp, rfl, rfl, rfl⟩ :
                  p = "172".data ∧ a = x2 ∧ b = a2 ∧ c = b2 := by
                simpa using heq
              simp only [Bool.and_eq_true, decide_eq_true_eq, digitsBlockIff,
                octet16to31Iff]
              exact ⟨⟨⟨hp, hn⟩, ha⟩, hb⟩
          | cons d rest5 => simp

theorem patDotLocalIff (h : String) :
    patDotLocal h = true ↔ SpecDotLocal h := by
  simp only [patDotLocal, decide_eq_true_eq, SpecDotLocal]
  constructor
  · rintro ⟨t, ht⟩
    exact ⟨t, ht.symm⟩
  · rintro ⟨pre, hp⟩
    exact ⟨pre, hp.symm⟩

/-- The code's `privatePatterns` list blocks exactly the spec-worded classes:
loopback, the 0.0.0.0/8 block, RFC1918 and `.local` hostnames. -/
theorem privateHostnameIff (h : String) :
    privateHostname h = true ↔ SpecBlockedHostname h := by
  simp only [privateHostname, List.any_cons, List.any_nil, Bool.or_eq_true,
    Bool.or_false]
  rw [quadPatternIff, quadPatternIff, quadPatternIff, pat172Iff,
    quadPattern2Iff, patDotLocalIff]
  simp only [decide_eq_true_eq]
  unfold SpecBlockedHostname SpecLoopback SpecZeroNet SpecRfc1918
  constructor
  · rintro (h1 | h1 | h1 | h1 | h1 | h1 | h1 | h1 | h1)
    · exact Or.inl (Or.inl h1)
    · exact Or.inl (Or.inr (Or.inr (Or.inr h1)))
    · exact Or.inl (Or.inr (Or.inr (Or.inl h1)))
    · exact Or.inr (Or.inl h1)
    · exact Or.inr (Or.inr (Or.inl (Or.inl h1)))
    · exact Or.inr (Or.inr (Or.inl (Or.inr (Or.inl h1))))
    · exact Or.inr (Or.inr (Or.inl (Or.inr (Or.inr h1))))
    · exact Or.inr (Or.inr (Or.inr h1))
    · exact Or.inl (Or.inr (Or.inl h1))
  · rintro ((h1 | h1 | h1 | h1) | h1 | (h1 | h1 | h1) | h1)
    · exact Or.inl h1
    · exact Or.inr (Or.inr (Or.inr (Or.inr (Or.inr (Or.inr (Or.inr (Or.inr h1)))))))
    · exact Or.inr (Or.inr (Or.inl h1))
    · exact Or.inr (Or.inl h1)
    · exact Or.inr (Or.inr (Or.inr (Or.inl h1)))
    · exact Or.inr (Or.inr (Or.inr (Or.inr (Or.inl h1))))
    · exact Or.inr (Or.inr (Or.inr (Or.inr (Or.inr (Or.inl h1)))))
    · exact Or.inr (Or.inr (Or.inr (Or.inr (Or.inr (Or.inr (Or.inl h1))))))
    · exact Or.inr (Or.inr (Or.inr (Or.inr (Or.inr (Or.inr (Or.inr (Or.inl h1)))))))

/-- C3 counterexample.  The claim says every link-local hostname is rejected
and no source created, but `privatePatterns` has no entry for
`169.254.0.0/16`: posting `http://169.254.169.254/feed` (the classic cloud
metadata address) passes validation and a source row is created. -/
theorem linkLocalNotBlockedCounterexample :
    isLinkLocalHostname "169.254.169.254" = true ∧
    (postSourcesRoute dbSmallU "u" "metadata" "http://169.254.169.254/feed" "rss"
      (some ⟨"http:", "169.254.169.254"⟩) 9 "t").2 = PostSourceResult.created 9 ∧
    ¬ (postSourcesRoute dbSmallU "u" "metadata" "http://169.254.169.254/feed" "rss"
      (some ⟨"http:", "169.254.169.254"⟩) 9 "t").1 = dbSmallU := by
  refine ⟨by decide, by decide, by decide⟩

/-- C3 amended.  With the required fields present, `POST /api/sources` creates
a source exactly when the URL parsed, its protocol is `http:` or `https:`,
and its lowercased hostname is in none of the blocked classes — loopback
(`localhost`, `localhost.localdomain`, `::1`, `127.d+.d+.d+`), the
`0.0.0.0/8` dotted quads, RFC1918 (`10.d+.d+.d+`, `172.(16-31).d+.d+` with a
canonical two-digit second octet, `192.168.d+.d+`) and `.local`-suffixed
hostnames; every rejection is a 400 that creates nothing, and an unparseable
URL is rejected the same way.  Link-local (`169.254.0.0/16`) hostnames are
not among the blocked classes. -/
theorem postSourcesValidation (db : DB) (userId name url type : String)
    (pu : ParsedUrl) (newId : Nat) (now : String)
    (hname : ¬ name = "") (hurl : ¬ url = "") (htype : ¬ type = "") :
    ((postSourcesRoute db userId name url type (some pu) newId now).2 =
        PostSourceResult.created newId ↔
      (pu.protocol = "http:" ∨ pu.protocol = "https:") ∧
        ¬ SpecBlockedHostname (jsToLower pu.hostname)) ∧
    (¬ (postSourcesRoute db userId name url type (some pu) newId now).2 =
        PostSourceResult.created newId →
      statusOfPostSource
          (postSourcesRoute db userId name url type (some pu) newId now).2 = 400 ∧
        (postSourcesRoute db userId name url type (some pu) newId now).1 = db) ∧
    postSourcesRoute db userId name url type none newId now =
      (db, PostSourceResult.invalidUrl) := by
  have hno : ¬ (name = "" ∨ url = "" ∨ type = "") := by
    intro hcon
    rcases hcon with h | h | h
    · exact hname h
    · exact hurl h
    · exact htype h
  have hroute : postSourcesRoute db userId name url type (some pu) newId now =
      (if ¬(pu.protocol = "http:" ∨ pu.protocol = "https:") then
        (db, PostSourceResult.badProtocol)
      else if privateHostname (jsToLower pu.hostname) then
        (db, PostSourceResult.privateBlocked)
      else
        (sourceQueries.create db userId name url type true newId now,
          PostSourceResult.created newId)) := by
    rw [postSourcesRoute, if_neg hno]
  refine ⟨?_, ?_, ?_⟩
  · rw [hroute]
    by_cases hp : pu.protocol = "http:" ∨ pu.protocol = "https:"
    · rw [if_neg (not_not_intro hp)]
      by_cases hpb : privateHostname (jsToLower pu.hostname)
      · rw [if_pos hpb]
        have hs := (privateHostnameIff (jsToLower pu.hostname)).mp hpb
        simp [hs]
      · rw [if_neg hpb]
        simp only [true_iff, iff_true]
        refine ⟨hp, ?_⟩
        intro hs
        exact hpb ((privateHostnameIff (jsToLower pu.hostname)).mpr hs)
    · rw [if_pos hp]
      simp [hp]
  · rw [hroute]
    by_cases hp : pu.protocol = "http:" ∨ pu.protocol = "https:"
    · rw [if_neg (not_not_intro hp)]
      by_cases hpb : privateHostname (jsToLower pu.hostname)
      · rw [if_pos hpb]
        intro _
        exact ⟨rfl, rfl⟩
      · rw [if_neg hpb]
        intro hcon
        exact absurd rfl hcon
    · rw [if_pos hp]
      intro _
      exact ⟨rfl, rfl⟩
  · rw [postSourcesRoute, if_neg hno]

/-- Witness for C3's amended theorem: a public hostname is accepted. -/
theorem postSourcesValidationWitness :
    (postSourcesRoute dbSmallU "u" "feed" "http://example.com/rss" "rss"
      (some ⟨"http:", "example.com"⟩) 9 "t").2 = PostSourceResult.created 9 :=
  ((postSourcesValidation dbSmallU "u" "feed" "http://example.com/rss" "rss"
      ⟨"http:", "example.com"⟩ 9 "t" (by decide) (by decide) (by decide)).1).mpr
    ⟨Or.inl rfl, fun hs => by
      have hb := (privateHostnameIff (jsToLower "example.com")).mpr hs
      exact absurd hb (by decide)⟩

end NewsFeed
